import Mathlib

/-!
Shallow embedding of `qa_video_simple.py`, a script that turns a CSV of
question/answer text pairs into one narrated, captioned video file.
External collaborators (the pyttsx3 speech engine together with the
soundfile/sounddevice decode-and-play test, the PIL glyph rasterizer, the
csv/encoding file reader, and the ffmpeg container encoder) are modelled as
explicit function parameters; everything else is translated directly from
the source.
-/

namespace QaVideo

/-- Python `' '.join(words)`. -/
def joinSpace : List String → String
  | [] => ""
  | [w] => w
  | w :: ws => w ++ " " ++ joinSpace ws

/-- Helper for `pySplit`: walks the characters, accumulating the current
word (in reverse) and cutting at whitespace, dropping empty pieces. -/
def splitWsAux : List Char → List Char → List String
  | acc, [] => if acc = [] then [] else [String.mk acc.reverse]
  | acc, c :: cs =>
    if c.isWhitespace then
      (if acc = [] then [] else [String.mk acc.reverse]) ++ splitWsAux [] cs
    else
      splitWsAux (c :: acc) cs

/-- Python `text.split()`: split on runs of whitespace, no empty pieces. -/
def pySplit (s : String) : List String :=
  splitWsAux [] s.data

/-- The width test on line 26 of the source:
`len(test_line) * (font_size / 2) > max_width` with `font_size = 48`,
so the estimated width of a candidate line is its character count times 24. -/
def lineOverflow (maxW : Int) (line : List String) : Bool :=
  decide (((joinSpace line).length : Int) * 24 > maxW)

/-- The word-wrap loop of `create_text_image` (lines 23–31 of the source):
each word is appended to `current_line`; if the estimated width of the
joined candidate exceeds `max_width`, the line so far excluding that word
(`current_line[:-1]`) is emitted and a new line starts with that word.
After the loop a nonempty `current_line` is flushed. -/
def wrapAux (maxW : Int) : List String → List String → List (List String)
  | cur, [] => if cur = [] then [] else [cur]
  | cur, w :: ws =>
    if lineOverflow maxW (cur ++ [w]) then
      (cur ++ [w]).dropLast :: wrapAux maxW [w] ws
    else
      wrapAux maxW (cur ++ [w]) ws

/-- Word-wrapping starting from an empty `current_line`, as lines of words. -/
def wrapWords (maxW : Int) (ws : List String) : List (List String) :=
  wrapAux maxW [] ws

/-- The drawing loop of `create_text_image` (lines 33–37): each wrapped
line is placed at `x = margin = 60` and at a `y_position` that starts at
the margin and advances by `line_height = int(48 * 1.5) = 72` per line. -/
def placeLines : Nat → List String → List (String × Nat)
  | _, [] => []
  | y, l :: ls => (l, y) :: placeLines (y + 72) ls

/-- An RGB pixel. -/
abbrev Color := Nat × Nat × Nat

/-- Model of `create_text_image` (lines 13–39).  `drawText` is the external
PIL call `draw.text`, modelled as an update of the pixel function given the
position, the line of text and the fill color; the trailing
`np.array(image)` is the row-major sampling of the pixels over the image
size, so the buffer has `size.2` rows of `size.1` pixels each.  The source
defaults are `size = (1280, 720)`, `bg_color = (0, 0, 128)` and
`text_color = (255, 255, 255)`. -/
def create_text_image
    (drawText : (Nat → Nat → Color) → Nat × Nat → String → Color → Nat → Nat → Color)
    (text : String) (size : Nat × Nat) (bg_color text_color : Color) :
    List (List Color) :=
  let img0 : Nat → Nat → Color := fun _ _ => bg_color
  let maxW : Int := (size.1 : Int) - 2 * 60
  let lines := (wrapWords maxW (pySplit text)).map joinSpace
  let final := (placeLines 60 lines).foldl
    (fun img p => drawText img (60, p.2) p.1 text_color) img0
  (List.range size.2).map (fun y => (List.range size.1).map (fun x => final x y))

/-- Error taxonomy of the pipeline, named after the spec: `inputError` for
the `ValueError` raised when all encodings are exhausted (line 54),
`segmentBuildError` for the `RuntimeError` raised when creating or testing
an audio file fails (line 89), `encodingError` for the failure of both
`write_videofile` attempts (lines 145–170). -/
inductive PipeErr
  | inputError
  | segmentBuildError
  | encodingError
deriving DecidableEq, Repr

/-- The fixed encoding list of `read_csv_with_encoding` (line 42). -/
def encodings : List String := ["utf-8", "utf-8-sig", "latin1", "cp1252"]

/-- Model of `read_csv_with_encoding` (lines 41–54).  `dec` is the external
file read and csv parse under a named encoding: it returns the parsed rows,
or `none` when decoding raises `UnicodeDecodeError` (the `continue`).  The
source returns `data[1:]` as soon as more than the header row parsed,
otherwise falls through to the next encoding; exhausting the list raises
`ValueError("Could not read CSV file with any encoding")`. -/
def read_csv_with_encoding (dec : String → Option (List (List String))) :
    List String → Except PipeErr (List (List String))
  | [] => .error .inputError
  | e :: es =>
    match dec e with
    | none => read_csv_with_encoding dec es
    | some data =>
      if data.length > 1 then .ok (data.drop 1)
      else read_csv_with_encoding dec es

/-- Filesystem contents of the per-run `temp` directory, as the list of
audio file paths currently present. -/
abbrev FS := List String

/-- Duration of a decoded audio `(samples, samplerate)`, the source's
`len(data)/samplerate`. -/
def audioDuration (sr : Nat × Nat) : ℚ := (sr.1 : ℚ) / (sr.2 : ℚ)

/-- Model of `create_audio_file` (lines 56–81).  `synth` is the external
chain of pyttsx3 synthesis followed by the `sf.read` decode and the
`sd.play`/`sd.wait` playback test inside the `try` block: it returns the
decoded `(samples, samplerate)` when the `try` block completes (the source
returns `True`), and `none` when it raises (the source returns `False`).
The speech engine writes the file at `output_path` before the test runs,
so the file is on disk for both outcomes.  The source returns only the
boolean; the decoded pair is carried here because `create_qa_clip` later
re-reads the same file through `AudioFileClip` to obtain its duration. -/
def create_audio_file (synth : String → Option (Nat × Nat))
    (text output_path : String) (fs : FS) : Option (Nat × Nat) × FS :=
  (synth text, fs ++ [output_path])

/-- One moviepy clip as assembled by `create_qa_clip`: `text` and `bg` are
the arguments its frame was rendered from through `create_text_image`,
`duration` is the clip duration set by `set_duration`, and `audio` is the
decoded audio `(samples, samplerate)` attached by `set_audio`, if any. -/
structure Segment where
  text : String
  bg : Color
  duration : ℚ
  audio : Option (Nat × Nat)
deriving DecidableEq, Repr

/-- The pause clip of line 110: empty text on a black background,
duration 0.5 s, no audio track. -/
def pauseSeg : Segment := ⟨"", (0, 0, 0), 1/2, none⟩

/-- Path `temp_dir / f'q_{qa_index}.wav'` (line 84). -/
def q_audio_path (i : Nat) : String := "temp/q_" ++ toString i ++ ".wav"

/-- Path `temp_dir / f'a_{qa_index}.wav'` (line 85). -/
def a_audio_path (i : Nat) : String := "temp/a_" ++ toString i ++ ".wav"

/-- The cleanup loop of lines 117–119:
`for file in [q, a]: if file.exists(): file.unlink()`. -/
def deleteFiles (fs : FS) (ps : List String) : FS :=
  fs.filter (fun f => !ps.contains f)

/-- Model of `create_qa_clip` (lines 83–121), mirroring its control flow:
the short-circuit `or` on line 88 synthesizes the answer only after the
question succeeded, and the `raise RuntimeError` sits before the
`try`/`finally` block, so the `finally` deletion of the two temp files runs
only on the paths that enter the `try` block.  On success the four clips
are question frame + question audio, pause, answer frame + answer audio,
pause, with each speech clip's duration set to its audio clip's duration. -/
def create_qa_clip (synth : String → Option (Nat × Nat))
    (question answer : String) (qa_index : Nat) (fs : FS) :
    Except PipeErr (List Segment) × FS :=
  let qp := q_audio_path qa_index
  let ap := a_audio_path qa_index
  match create_audio_file synth question qp fs with
  | (none, fs1) => (.error .segmentBuildError, fs1)
  | (some qa, fs1) =>
    match create_audio_file synth answer ap fs1 with
    | (none, fs2) => (.error .segmentBuildError, fs2)
    | (some aa, fs2) =>
      let segs : List Segment := [
        ⟨"Q: " ++ question, (0, 0, 128), audioDuration qa, some qa⟩,
        pauseSeg,
        ⟨"A: " ++ answer, (0, 64, 0), audioDuration aa, some aa⟩,
        pauseSeg]
      (.ok segs, deleteFiles fs2 [qp, ap])

/-- The per-pair loop of `create_video` (lines 130–136): pairs are
processed strictly in input order with indices counted from 1, both texts
are stripped, the four clips of each pair are appended to `all_clips`, and
the first failure aborts the run. -/
def create_video_clips (synth : String → Option (Nat × Nat)) :
    Nat → FS → List (String × String) → Except PipeErr (List Segment) × FS
  | _, fs, [] => (.ok [], fs)
  | i, fs, (q, a) :: rest =>
    match create_qa_clip synth q.trim a.trim i fs with
    | (.error e, fs2) => (.error e, fs2)
    | (.ok segs, fs2) =>
      match create_video_clips synth (i + 1) fs2 rest with
      | (.error e, fs3) => (.error e, fs3)
      | (.ok more, fs3) => (.ok (segs ++ more), fs3)

/-- One `write_videofile` parameter set. -/
structure EncCfg where
  fps : Nat
  codec : String
  audioCodec : String
  audioBitrate : String
  ffmpegParams : List String
deriving DecidableEq, Repr

/-- The primary `write_videofile` call (lines 146–157): H.264 video, AAC
audio at 192k, with `-strict -2`, forced stereo and forced 44.1 kHz. -/
def primaryCfg : EncCfg :=
  ⟨24, "libx264", "aac", "192k", ["-strict", "-2", "-ac", "2", "-ar", "44100"]⟩

/-- The fallback `write_videofile` call (lines 163–170): same video codec,
MP3 (`libmp3lame`) audio, and the reduced ffmpeg parameter set of forced
stereo only. -/
def fallbackCfg : EncCfg :=
  ⟨24, "libx264", "libmp3lame", "192k", ["-ac", "2"]⟩

/-- The `try`/`except` around the two `write_videofile` calls (lines
145–170).  `enc` is the external encoder, `true` meaning the call
succeeded.  The result lists the attempted parameter sets in order and
carries the error when both attempts fail (the spec's `EncodingError`);
there is no loop, so no third attempt can occur. -/
def write_videofile_fallback (enc : EncCfg → Bool) : List EncCfg × Option PipeErr :=
  if enc primaryCfg then ([primaryCfg], none)
  else if enc fallbackCfg then ([primaryCfg, fallbackCfg], none)
  else ([primaryCfg, fallbackCfg], some .encodingError)

/-- Total duration of a clip list, the duration of the concatenated
timeline produced by `concatenate_videoclips` (line 139). -/
def totalDuration (segs : List Segment) : ℚ :=
  (segs.map Segment.duration).sum

/-- Model of `create_video` (lines 123–185): build all clips, then encode
the concatenated timeline with the fallback policy; on success the output
lands at `output/qa_video.mp4` (line 141). -/
def create_video (synth : String → Option (Nat × Nat)) (enc : EncCfg → Bool)
    (qa_pairs : List (String × String)) : Except PipeErr String :=
  match create_video_clips synth 1 [] qa_pairs with
  | (.error e, _) => .error e
  | (.ok _, _) =>
    match (write_videofile_fallback enc).2 with
    | none => .ok "output/qa_video.mp4"
    | some e => .error e

/-- Outcome of the input-reading phase of `main`. -/
inductive RunOutcome
  | errorMsg (msg : String)
  | noPairsMsg
  | proceeds (rows : List (List String))
deriving DecidableEq, Repr

/-- Whether the outcome is the "No Q&A pairs found in CSV file" message. -/
def isNoPairsMsg : RunOutcome → Bool
  | .noPairsMsg => true
  | _ => false

/-- The input-handling part of `main` (lines 204–211): read the CSV; the
`ValueError` raised by the reader is caught by the outer handler of line
226 and printed as `Error: Could not read CSV file with any encoding`; an
empty pair list would print `No Q&A pairs found in CSV file` and return;
otherwise the run proceeds to `create_video` with the parsed rows. -/
def mainReadPhase (dec : String → Option (List (List String))) : RunOutcome :=
  match read_csv_with_encoding dec encodings with
  | .error _ => .errorMsg "Could not read CSV file with any encoding"
  | .ok [] => .noPairsMsg
  | .ok rows => .proceeds rows

/-- The four clips `create_qa_clip` returns for one stripped pair, as a
function of the synthesized audio; empty when either synthesis fails. -/
def pairSegs (synth : String → Option (Nat × Nat)) (p : String × String) :
    List Segment :=
  match synth p.1.trim, synth p.2.trim with
  | some qa, some aa =>
    [⟨"Q: " ++ p.1.trim, (0, 0, 128), audioDuration qa, some qa⟩,
     pauseSeg,
     ⟨"A: " ++ p.2.trim, (0, 64, 0), audioDuration aa, some aa⟩,
     pauseSeg]
  | _, _ => []

/-- The playback time one pair contributes to the timeline: its two audio
durations plus the two 0.5 s pauses. -/
def pairDuration (synth : String → Option (Nat × Nat)) (p : String × String) : ℚ :=
  match synth p.1.trim, synth p.2.trim with
  | some qa, some aa => audioDuration qa + audioDuration aa + 1
  | _, _ => 0

/-! Lemmas about the word-wrap of `create_text_image`. -/

lemma joinSpace_cons_of_ne (x : String) (l : List String) (h : l ≠ []) :
    joinSpace (x :: l) = x ++ " " ++ joinSpace l := by
  cases l with
  | nil => exact absurd rfl h
  | cons y ys => rfl

lemma length_joinSpace_head_le (x : String) (l : List String) :
    x.length ≤ (joinSpace (x :: l)).length := by
  cases l with
  | nil => exact Nat.le_refl _
  | cons y ys =>
    rw [joinSpace_cons_of_ne x _ (List.cons_ne_nil y ys)]
    simp only [String.length_append]
    omega

lemma length_joinSpace_last_le (w : String) (l : List String) :
    w.length ≤ (joinSpace (l ++ [w])).length := by
  induction l with
  | nil => exact Nat.le_refl _
  | cons x xs ih =>
    have hne : xs ++ [w] ≠ [] := by simp
    rw [List.cons_append, joinSpace_cons_of_ne x _ hne]
    simp only [String.length_append]
    omega

lemma lineOverflow_iff (maxW : Int) (l : List String) :
    lineOverflow maxW l = true ↔ ((joinSpace l).length : Int) * 24 > maxW := by
  simp [lineOverflow]

lemma lineOverflow_append_of_single (maxW : Int) (l : List String) (w : String)
    (h : lineOverflow maxW [w] = true) : lineOverflow maxW (l ++ [w]) = true := by
  rw [lineOverflow_iff] at h ⊢
  have hm : (w.length : Int) ≤ ((joinSpace (l ++ [w])).length : Int) := by
    exact_mod_cast length_joinSpace_last_le w l
  have hw : ((joinSpace [w]).length : Int) = (w.length : Int) := by rfl
  rw [hw] at h
  nlinarith

lemma lineOverflow_cons_of_single (maxW : Int) (x : String) (l : List String)
    (h : lineOverflow maxW [x] = true) : lineOverflow maxW (x :: l) = true := by
  rw [lineOverflow_iff] at h ⊢
  have hm : (x.length : Int) ≤ ((joinSpace (x :: l)).length : Int) := by
    exact_mod_cast length_joinSpace_head_le x l
  have hw : ((joinSpace [x]).length : Int) = (x.length : Int) := by rfl
  rw [hw] at h
  nlinarith

lemma wrapAux_nil (maxW : Int) (cur : List String) :
    wrapAux maxW cur [] = if cur = [] then [] else [cur] := rfl

lemma wrapAux_cons_over (maxW : Int) (cur : List String) (w : String)
    (ws : List String) (h : lineOverflow maxW (cur ++ [w]) = true) :
    wrapAux maxW cur (w :: ws) = cur :: wrapAux maxW [w] ws := by
  simp [wrapAux, h]

lemma wrapAux_cons_nover (maxW : Int) (cur : List String) (w : String)
    (ws : List String) (h : lineOverflow maxW (cur ++ [w]) = false) :
    wrapAux maxW cur (w :: ws) = wrapAux maxW (cur ++ [w]) ws := by
  simp [wrapAux, h]

/-- Every word of the input appears, once and in order, in the wrapped
output: flattening the lines recovers the word list prefixed by the
running `current_line`. -/
lemma wrapAux_join (maxW : Int) :
    ∀ (ws cur : List String), (wrapAux maxW cur ws).flatten = cur ++ ws := by
  intro ws
  induction ws with
  | nil =>
    intro cur
    by_cases h : cur = [] <;> simp [wrapAux_nil, h]
  | cons w ws ih =>
    intro cur
    cases hov : lineOverflow maxW (cur ++ [w]) with
    | true =>
      rw [wrapAux_cons_over maxW cur w ws hov]
      simp [ih]
    | false =>
      rw [wrapAux_cons_nover maxW cur w ws hov, ih]
      simp

/-- The first emitted line extends the running `current_line` when the
latter is nonempty. -/
lemma wrapAux_first (maxW : Int) :
    ∀ (ws cur : List String), cur ≠ [] →
      ∃ t L, wrapAux maxW cur ws = (cur ++ t) :: L := by
  intro ws
  induction ws with
  | nil =>
    intro cur h
    exact ⟨[], [], by simp [wrapAux_nil, h]⟩
  | cons w ws ih =>
    intro cur h
    cases hov : lineOverflow maxW (cur ++ [w]) with
    | true =>
      exact ⟨[], wrapAux maxW [w] ws, by rw [wrapAux_cons_over maxW cur w ws hov]; simp⟩
    | false =>
      obtain ⟨t, L, hEq⟩ := ih (cur ++ [w]) (by simp)
      exact ⟨w :: t, L, by rw [wrapAux_cons_nover maxW cur w ws hov, hEq]; simp⟩

/-- Each line break is caused by an overflow: the line after position `i`
starts with exactly the word whose addition overflowed the line at `i`. -/
lemma wrapAux_adj (maxW : Int) :
    ∀ (ws cur : List String) (i : Nat) (li lnext : List String),
      (wrapAux maxW cur ws).get? i = some li →
      (wrapAux maxW cur ws).get? (i + 1) = some lnext →
      ∃ w rest, lnext = w :: rest ∧ lineOverflow maxW (li ++ [w]) = true := by
  intro ws
  induction ws with
  | nil =>
    intro cur i li lnext _ h2
    by_cases h : cur = []
    · rw [wrapAux_nil, if_pos h] at h2
      simp at h2
    · rw [wrapAux_nil, if_neg h] at h2
      simp at h2
  | cons w ws ih =>
    intro cur i li lnext h1 h2
    cases hov : lineOverflow maxW (cur ++ [w]) with
    | false =>
      rw [wrapAux_cons_nover maxW cur w ws hov] at h1 h2
      exact ih (cur ++ [w]) i li lnext h1 h2
    | true =>
      rw [wrapAux_cons_over maxW cur w ws hov] at h1 h2
      cases i with
      | zero =>
        simp only [List.get?_cons_zero, Option.some.injEq] at h1
        simp only [List.get?_cons_succ] at h2
        obtain ⟨t, L, hfl⟩ := wrapAux_first maxW ws [w] (List.cons_ne_nil w [])
        rw [hfl] at h2
        simp only [List.get?_cons_zero, Option.some.injEq] at h2
        refine ⟨w, t, by rw [← h2]; rfl, ?_⟩
        rw [← h1]
        exact hov
      | succ j =>
        simp only [List.get?_cons_succ] at h1 h2
        exact ih [w] j li lnext h1 h2

/-- A word whose estimated width alone exceeds the limit ends up on a line
of its own. -/
lemma wrapAux_lone (maxW : Int) :
    ∀ (ws cur : List String) (w : String),
      w ∈ ws → lineOverflow maxW [w] = true → [w] ∈ wrapAux maxW cur ws := by
  intro ws
  induction ws with
  | nil =>
    intro cur w h
    exact absurd h (List.not_mem_nil w)
  | cons x xs ih =>
    intro cur w hmem hov
    rcases List.mem_cons.mp hmem with heq | htail
    · subst heq
      have hcur : lineOverflow maxW (cur ++ [w]) = true :=
        lineOverflow_append_of_single maxW cur w hov
      rw [wrapAux_cons_over maxW cur w xs hcur]
      apply List.mem_cons_of_mem
      cases xs with
      | nil =>
        simp [wrapAux_nil]
      | cons y ys =>
        have h2 : lineOverflow maxW ([w] ++ [y]) = true :=
          lineOverflow_cons_of_single maxW w [y] hov
        rw [wrapAux_cons_over maxW [w] y ys h2]
        exact List.mem_cons_self _ _
    · cases hov2 : lineOverflow maxW (cur ++ [x]) with
      | true =>
        rw [wrapAux_cons_over maxW cur x xs hov2]
        exact List.mem_cons_of_mem _ (ih [x] w htail hov)
      | false =>
        rw [wrapAux_cons_nover maxW cur x xs hov2]
        exact ih (cur ++ [x]) w htail hov

/-- Claim C7: for every input text, the word-wrap in render packs words
greedily using the estimated width (character count times `font_size / 2 =
24`) against the limit: flattening the wrapped lines recovers the word list
(so a word is never split across lines and order is preserved); whenever a
line is followed by another, the following line starts with exactly the
word whose addition made the previous line's estimate exceed the limit
(the line was closed excluding that word); and a single word that alone
exceeds the limit still occupies a line of its own. -/
theorem wrap_greedy (maxW : Int) (ws : List String) :
    (wrapWords maxW ws).flatten = ws
  ∧ (∀ i li lnext, (wrapWords maxW ws).get? i = some li →
      (wrapWords maxW ws).get? (i + 1) = some lnext →
      ∃ w rest, lnext = w :: rest ∧
        ((joinSpace (li ++ [w])).length : Int) * 24 > maxW)
  ∧ (∀ w ∈ ws, (w.length : Int) * 24 > maxW → [w] ∈ wrapWords maxW ws) := by
  refine ⟨?_, ?_, ?_⟩
  · simpa using wrapAux_join maxW ws []
  · intro i li lnext h1 h2
    obtain ⟨w, rest, hw, hov⟩ := wrapAux_adj maxW ws [] i li lnext h1 h2
    exact ⟨w, rest, hw, (lineOverflow_iff maxW (li ++ [w])).mp hov⟩
  · intro w hmem hgt
    apply wrapAux_lone maxW ws [] w hmem
    rw [lineOverflow_iff]
    exact hgt

theorem wrap_greedy_witness :
    (wrapWords 0 ["a", "b"]).flatten = ["a", "b"]
  ∧ (∃ w rest, (["a"] : List String) = w :: rest ∧
      ((joinSpace (([] : List String) ++ [w])).length : Int) * 24 > 0)
  ∧ [("a" : String)] ∈ wrapWords 0 ["a", "b"] := by
  have h := wrap_greedy 0 ["a", "b"]
  refine ⟨h.1, ?_, h.2.2 "a" (by decide) (by decide)⟩
  exact h.2.1 0 [] ["a"] (by decide) (by decide)

/-- Claim C10: when the first word of the text already exceeds the
estimated width limit by itself, the wrap emits an empty line first and
then that word on a line of its own, so in the drawn layout the empty line
sits at `y = margin = 60` and the first word's line at
`y = margin + line_height = 132` — all text is shifted down one line. -/
theorem wrap_leading_empty_line (maxW : Int) (w : String) (rest : List String)
    (h : (w.length : Int) * 24 > maxW) :
    (∃ L, wrapWords maxW (w :: rest) = [] :: [w] :: L)
  ∧ (∃ P, placeLines 60 ((wrapWords maxW (w :: rest)).map joinSpace) =
      ("", 60) :: (w, 132) :: P) := by
  have hov : lineOverflow maxW [w] = true := by
    rw [lineOverflow_iff]
    exact h
  have hov2 : lineOverflow maxW (([] : List String) ++ [w]) = true := by
    simpa using hov
  have hshape : ∃ L, wrapWords maxW (w :: rest) = [] :: [w] :: L := by
    rw [wrapWords, wrapAux_cons_over maxW [] w rest hov2]
    cases rest with
    | nil => exact ⟨[], by simp [wrapAux_nil]⟩
    | cons y ys =>
      have h3 : lineOverflow maxW ([w] ++ [y]) = true :=
        lineOverflow_cons_of_single maxW w [y] hov
      exact ⟨wrapAux maxW [y] ys, by rw [wrapAux_cons_over maxW [w] y ys h3]⟩
  obtain ⟨L, hL⟩ := hshape
  refine ⟨⟨L, hL⟩, ⟨placeLines 204 (L.map joinSpace), ?_⟩⟩
  rw [hL]
  rfl

theorem wrap_leading_empty_line_witness :
    (∃ L, wrapWords 1160
        ["aaaaaaaaaaaaaaaaaaaaaaaaaaaaaaaaaaaaaaaaaaaaaaaaa"] =
      [] :: ["aaaaaaaaaaaaaaaaaaaaaaaaaaaaaaaaaaaaaaaaaaaaaaaaa"] :: L)
  ∧ (∃ P, placeLines 60 ((wrapWords 1160
        ["aaaaaaaaaaaaaaaaaaaaaaaaaaaaaaaaaaaaaaaaaaaaaaaaa"]).map joinSpace) =
      ("", 60) :: ("aaaaaaaaaaaaaaaaaaaaaaaaaaaaaaaaaaaaaaaaaaaaaaaaa", 132) :: P) :=
  wrap_leading_empty_line 1160
    "aaaaaaaaaaaaaaaaaaaaaaaaaaaaaaaaaaaaaaaaaaaaaaaaa" [] (by decide)

/-- Claim C8: for every text and every behavior of the external glyph
rasterizer, `create_text_image` returns a buffer of exactly the configured
size (`size.2` rows of `size.1` pixels); identical inputs give identical
buffers; and empty text yields a frame consisting entirely of the
background color. -/
theorem create_text_image_props
    (drawText : (Nat → Nat → Color) → Nat × Nat → String → Color → Nat → Nat → Color)
    (text : String) (size : Nat × Nat) (bg fg : Color) :
    (create_text_image drawText text size bg fg).length = size.2
  ∧ (∀ row ∈ create_text_image drawText text size bg fg, row.length = size.1)
  ∧ create_text_image drawText text size bg fg =
      create_text_image drawText text size bg fg
  ∧ create_text_image drawText "" size bg fg =
      (List.range size.2).map (fun _ => (List.range size.1).map (fun _ => bg)) := by
  refine ⟨?_, ?_, rfl, ?_⟩
  · simp [create_text_image]
  · intro row hrow
    simp only [create_text_image, List.mem_map] at hrow
    obtain ⟨y, _, hEq⟩ := hrow
    rw [← hEq]
    simp
  · have hempty : pySplit "" = [] := rfl
    simp [create_text_image, hempty, wrapWords, wrapAux, placeLines]

theorem create_text_image_props_witness :
    (create_text_image (fun img _ _ _ => img) "hi" (1280, 720)
        (0, 0, 128) (255, 255, 255)).length = 720
  ∧ ((List.range 3).map (fun _ => ((0, 0, 128) : Color))).length = 3
  ∧ create_text_image (fun img _ _ _ => img) "" (1280, 720)
        (0, 0, 128) (255, 255, 255) =
      (List.range 720).map (fun _ =>
        (List.range 1280).map (fun _ => ((0, 0, 128) : Color))) := by
  have h := create_text_image_props (fun img _ _ _ => img) "hi" (1280, 720)
    (0, 0, 128) (255, 255, 255)
  have h2 := create_text_image_props (fun img _ _ _ => img) "x" (3, 2)
    (0, 0, 128) (255, 255, 255)
  exact ⟨h.1, h2.2.1 ((List.range 3).map (fun _ => ((0, 0, 128) : Color)))
    (by decide), h.2.2.2⟩

/-! Lemmas about `read_csv_with_encoding` and the input phase of `main`. -/

/-- An encoding under which the file decodes and parses to more than the
header row. -/
def goodEnc (dec : String → Option (List (List String))) (e : String) : Prop :=
  ∃ d, dec e = some d ∧ d.length > 1

lemma read_csv_cons_none (dec : String → Option (List (List String)))
    (e : String) (es : List String) (h : dec e = none) :
    read_csv_with_encoding dec (e :: es) = read_csv_with_encoding dec es := by
  simp [read_csv_with_encoding, h]

lemma read_csv_cons_some (dec : String → Option (List (List String)))
    (e : String) (es : List String) (d : List (List String))
    (h : dec e = some d) :
    read_csv_with_encoding dec (e :: es) =
      if d.length > 1 then .ok (d.drop 1)
      else read_csv_with_encoding dec es := by
  simp [read_csv_with_encoding, h]

lemma read_csv_exhaust (dec : String → Option (List (List String))) :
    ∀ es : List String, (∀ e ∈ es, ¬ goodEnc dec e) →
      read_csv_with_encoding dec es = .error .inputError := by
  intro es
  induction es with
  | nil => intro _; rfl
  | cons e es ih =>
    intro h
    cases hdec : dec e with
    | none =>
      rw [read_csv_cons_none dec e es hdec]
      exact ih (fun x hx => h x (List.mem_cons_of_mem e hx))
    | some data =>
      by_cases hlen : data.length > 1
      · exact absurd ⟨data, hdec, hlen⟩ (h e (List.mem_cons_self e es))
      · rw [read_csv_cons_some dec e es data hdec, if_neg hlen]
        exact ih (fun x hx => h x (List.mem_cons_of_mem e hx))

lemma read_csv_first (dec : String → Option (List (List String))) :
    ∀ (pre : List String) (e : String) (post : List String)
      (d : List (List String)),
      (∀ x ∈ pre, ¬ goodEnc dec x) → dec e = some d → d.length > 1 →
      read_csv_with_encoding dec (pre ++ e :: post) = .ok (d.drop 1) := by
  intro pre
  induction pre with
  | nil =>
    intro e post d _ hdec hlen
    simp [read_csv_with_encoding, hdec, hlen]
  | cons x pre ih =>
    intro e post d h hdec hlen
    rw [List.cons_append]
    cases hx : dec x with
    | none =>
      rw [read_csv_cons_none dec x (pre ++ e :: post) hx]
      exact ih e post d (fun z hz => h z (List.mem_cons_of_mem x hz)) hdec hlen
    | some dx =>
      by_cases hl : dx.length > 1
      · exact absurd ⟨dx, hx, hl⟩ (h x (List.mem_cons_self x pre))
      · rw [read_csv_cons_some dec x (pre ++ e :: post) dx hx, if_neg hl]
        exact ih e post d (fun z hz => h z (List.mem_cons_of_mem x hz)) hdec hlen

/-- The reader never returns an empty row list: it returns `data[1:]` only
when `len(data) > 1`. -/
lemma read_csv_ok_ne_nil (dec : String → Option (List (List String))) :
    ∀ (es : List String) (rows : List (List String)),
      read_csv_with_encoding dec es = .ok rows → rows ≠ [] := by
  intro es
  induction es with
  | nil =>
    intro rows h
    exact absurd h (by simp [read_csv_with_encoding])
  | cons e es ih =>
    intro rows h
    cases hdec : dec e with
    | none =>
      rw [read_csv_cons_none dec e es hdec] at h
      exact ih rows h
    | some data =>
      rw [read_csv_cons_some dec e es data hdec] at h
      by_cases hlen : data.length > 1
      · rw [if_pos hlen] at h
        have hr : data.drop 1 = rows := by
          simpa using h
        subst hr
        apply List.ne_nil_of_length_pos
        simp only [List.length_drop]
        omega
      · rw [if_neg hlen] at h
        exact ih rows h

/-- Claim C9: the input-table reader tries the encodings UTF-8, UTF-8 with
signature, Latin-1, Windows-1252 in exactly that fixed order; it returns
the rows (header discarded) of the first encoding under which the file
decodes and parses to more than the header row, and fails with the input
error when no encoding in the list does so. -/
theorem read_csv_encoding_order (dec : String → Option (List (List String))) :
    encodings = ["utf-8", "utf-8-sig", "latin1", "cp1252"]
  ∧ ((∀ e ∈ encodings, ¬ goodEnc dec e) →
      read_csv_with_encoding dec encodings = .error .inputError)
  ∧ (∀ (pre : List String) (e : String) (post : List String)
       (d : List (List String)),
       encodings = pre ++ e :: post →
       (∀ x ∈ pre, ¬ goodEnc dec x) →
       dec e = some d → d.length > 1 →
       read_csv_with_encoding dec encodings = .ok (d.drop 1)) := by
  refine ⟨rfl, read_csv_exhaust dec encodings, ?_⟩
  intro pre e post d hsplit hpre hdec hlen
  rw [hsplit]
  exact read_csv_first dec pre e post d hpre hdec hlen

theorem read_csv_encoding_order_witness :
    read_csv_with_encoding
      (fun e => if e = "utf-8-sig" then some [["h1", "h2"], ["r1", "r2"]] else none)
      encodings = .ok [["r1", "r2"]] := by
  have hpre : ∀ x ∈ (["utf-8"] : List String),
      ¬ goodEnc (fun e =>
        if e = "utf-8-sig" then some [["h1", "h2"], ["r1", "r2"]] else none) x := by
    intro x hx hgood
    obtain ⟨d, hd, _⟩ := hgood
    simp at hx
    subst hx
    simp at hd
  have h := (read_csv_encoding_order
    (fun e => if e = "utf-8-sig" then some [["h1", "h2"], ["r1", "r2"]] else none)).2.2
    ["utf-8"] "utf-8-sig" ["latin1", "cp1252"] [["h1", "h2"], ["r1", "r2"]]
    rfl hpre (by simp) (by decide)
  simpa using h

/-- Claim C6 (code bug): for a header-only table, every encoding decodes
but none parses more than the header row, so `read_csv_with_encoding`
raises `ValueError` and `main` prints the encoding error message — the
`No Q&A pairs found in CSV file` branch of `main` is unreachable for every
input, because the reader never returns an empty row list.  No output file
is created either way, since the run never reaches `create_video`. -/
theorem main_header_only_message :
    mainReadPhase (fun _ => some [["question", "answer"]]) =
      RunOutcome.errorMsg "Could not read CSV file with any encoding"
  ∧ ∀ dec, isNoPairsMsg (mainReadPhase dec) = false := by
  constructor
  · rfl
  · intro dec
    unfold mainReadPhase
    cases h : read_csv_with_encoding dec encodings with
    | error e => rfl
    | ok rows =>
      cases rows with
      | nil => exact absurd rfl (read_csv_ok_ne_nil dec encodings [] h)
      | cons r rs => rfl

/-! Lemmas about `create_qa_clip` and the aggregation loop. -/

lemma create_qa_clip_ok (synth : String → Option (Nat × Nat))
    (q a : String) (i : Nat) (fs : FS) (qa aa : Nat × Nat)
    (hq : synth q = some qa) (ha : synth a = some aa) :
    create_qa_clip synth q a i fs =
      (.ok [⟨"Q: " ++ q, (0, 0, 128), audioDuration qa, some qa⟩, pauseSeg,
            ⟨"A: " ++ a, (0, 64, 0), audioDuration aa, some aa⟩, pauseSeg],
       deleteFiles ((fs ++ [q_audio_path i]) ++ [a_audio_path i])
         [q_audio_path i, a_audio_path i]) := by
  simp [create_qa_clip, create_audio_file, hq, ha]

lemma create_qa_clip_err_q (synth : String → Option (Nat × Nat))
    (q a : String) (i : Nat) (fs : FS) (hq : synth q = none) :
    create_qa_clip synth q a i fs =
      (.error .segmentBuildError, fs ++ [q_audio_path i]) := by
  simp [create_qa_clip, create_audio_file, hq]

lemma create_qa_clip_err_a (synth : String → Option (Nat × Nat))
    (q a : String) (i : Nat) (fs : FS) (qa : Nat × Nat)
    (hq : synth q = some qa) (ha : synth a = none) :
    create_qa_clip synth q a i fs =
      (.error .segmentBuildError,
       (fs ++ [q_audio_path i]) ++ [a_audio_path i]) := by
  simp [create_qa_clip, create_audio_file, hq, ha]

/-- Claim C1: whenever both syntheses of a pair succeed, `create_qa_clip`
returns exactly these four clips in this order — question frame (text
prefixed "Q: ", dark-blue background 0,0,128) bound to the question audio
with duration equal to that audio's duration, a black silent pause, answer
frame (text prefixed "A: ", dark-green background 0,64,0) bound to the
answer audio with duration equal to that audio's duration, and the same
black silent pause again; the pause has duration 0.5 and no audio track. -/
theorem qa_clip_four_segments (synth : String → Option (Nat × Nat))
    (q a : String) (i : Nat) (fs : FS) (qa aa : Nat × Nat)
    (hq : synth q = some qa) (ha : synth a = some aa) :
    ∃ fs2,
      create_qa_clip synth q a i fs =
        (.ok [⟨"Q: " ++ q, (0, 0, 128), audioDuration qa, some qa⟩, pauseSeg,
              ⟨"A: " ++ a, (0, 64, 0), audioDuration aa, some aa⟩, pauseSeg],
         fs2)
    ∧ pauseSeg.duration = 1/2 ∧ pauseSeg.audio = none
    ∧ pauseSeg.bg = (0, 0, 0) ∧ pauseSeg.text = "" := by
  exact ⟨_, create_qa_clip_ok synth q a i fs qa aa hq ha, rfl, rfl, rfl, rfl⟩

theorem qa_clip_four_segments_witness :
    ∃ fs2,
      create_qa_clip (fun _ => some (100, 50)) "hello" "world" 1 [] =
        (.ok [⟨"Q: " ++ "hello", (0, 0, 128), audioDuration (100, 50),
                some (100, 50)⟩, pauseSeg,
              ⟨"A: " ++ "world", (0, 64, 0), audioDuration (100, 50),
                some (100, 50)⟩, pauseSeg],
         fs2)
    ∧ pauseSeg.duration = 1/2 ∧ pauseSeg.audio = none
    ∧ pauseSeg.bg = (0, 0, 0) ∧ pauseSeg.text = "" :=
  qa_clip_four_segments (fun _ => some (100, 50)) "hello" "world" 1 []
    (100, 50) (100, 50) rfl rfl

/-- Claim C5, corrected: the `finally` cleanup of `create_qa_clip` covers
only the paths that enter the `try` block.  On success both temp files are
removed before returning; but when either synthesis fails, the error
propagates with the files written so far still present — in particular the
question's file always survives the error (the `raise` on line 89 precedes
the `try`). -/
theorem qa_clip_cleanup (synth : String → Option (Nat × Nat))
    (q a : String) (i : Nat) (fs : FS) :
    (∀ segs fs2, create_qa_clip synth q a i fs = (.ok segs, fs2) →
        q_audio_path i ∉ fs2 ∧ a_audio_path i ∉ fs2)
  ∧ (∀ e fs2, create_qa_clip synth q a i fs = (.error e, fs2) →
        q_audio_path i ∈ fs2 ∧ ∀ f ∈ fs, f ∈ fs2) := by
  constructor
  · intro segs fs2 h
    cases hq : synth q with
    | none =>
      rw [create_qa_clip_err_q synth q a i fs hq] at h
      exact absurd h (by simp)
    | some qa =>
      cases ha : synth a with
      | none =>
        rw [create_qa_clip_err_a synth q a i fs qa hq ha] at h
        exact absurd h (by simp)
      | some aa =>
        rw [create_qa_clip_ok synth q a i fs qa aa hq ha] at h
        have hfs : fs2 = deleteFiles ((fs ++ [q_audio_path i]) ++ [a_audio_path i])
            [q_audio_path i, a_audio_path i] := by
          have := congrArg Prod.snd h
          simpa using this.symm
        subst hfs
        constructor <;> · intro hmem; simp [deleteFiles, List.mem_filter] at hmem
  · intro e fs2 h
    cases hq : synth q with
    | none =>
      rw [create_qa_clip_err_q synth q a i fs hq] at h
      have hfs : fs2 = fs ++ [q_audio_path i] := by
        have := congrArg Prod.snd h
        simpa using this.symm
      subst hfs
      exact ⟨by simp, fun f hf => by simp [hf]⟩
    | some qa =>
      cases ha : synth a with
      | none =>
        rw [create_qa_clip_err_a synth q a i fs qa hq ha] at h
        have hfs : fs2 = (fs ++ [q_audio_path i]) ++ [a_audio_path i] := by
          have := congrArg Prod.snd h
          simpa using this.symm
        subst hfs
        exact ⟨by simp, fun f hf => by simp [hf]⟩
      | some aa =>
        rw [create_qa_clip_ok synth q a i fs qa aa hq ha] at h
        exact absurd h (by simp)

theorem qa_clip_cleanup_witness :
    (∃ segs fs2,
      create_qa_clip (fun _ => some (2, 1)) "q" "a" 1 [] = (.ok segs, fs2)
      ∧ q_audio_path 1 ∉ fs2 ∧ a_audio_path 1 ∉ fs2) := by
  have h := (qa_clip_cleanup (fun _ => some (2, 1)) "q" "a" 1 []).1
  have heq := create_qa_clip_ok (fun _ => some (2, 1)) "q" "a" 1 []
    (2, 1) (2, 1) rfl rfl
  exact ⟨_, _, heq, h _ _ heq⟩

/-- Claim C5, counterexample to the original statement: with a synthesis
that succeeds on the question and fails validation on the answer,
`create_qa_clip` propagates its error while the question's temporary audio
file is still present — it is not deleted before the error propagates. -/
theorem qa_clip_cleanup_cex :
    ∃ fs2,
      create_qa_clip (fun t => if t = "q" then some (44100, 44100) else none)
        "q" "ans" 1 [] = (.error PipeErr.segmentBuildError, fs2)
    ∧ q_audio_path 1 ∈ fs2 := by
  refine ⟨["temp/q_1.wav", "temp/a_1.wav"], ?_, by decide⟩
  have hq : (fun t => if t = "q" then some ((44100 : Nat), (44100 : Nat)) else none) "q"
      = some (44100, 44100) := by simp
  have ha : (fun t => if t = "q" then some ((44100 : Nat), (44100 : Nat)) else none) "ans"
      = none := by simp
  rw [create_qa_clip_err_a _ "q" "ans" 1 [] (44100, 44100) hq ha]
  rfl

/-- Claim C4, corrected: `create_audio_file` reports failure exactly when
the decode-and-playback test raises; the duration of the decoded audio is
never checked, so audio that decodes to zero samples passes validation and
the composer receives a zero-duration asset. -/
theorem audio_validation (synth : String → Option (Nat × Nat))
    (q a : String) (i : Nat) (fs : FS) :
    (((create_audio_file synth q (q_audio_path i) fs).1.isSome) ↔ (synth q).isSome)
  ∧ (synth q = none →
      (create_qa_clip synth q a i fs).1 = .error .segmentBuildError)
  ∧ (∀ r : Nat, synth q = some (0, r) → synth a = some (0, r) →
      ∃ s1 s3 : Segment,
        (create_qa_clip synth q a i fs).1 = .ok [s1, pauseSeg, s3, pauseSeg]
        ∧ s1.audio = some (0, r) ∧ s1.duration = 0) := by
  refine ⟨Iff.rfl, ?_, ?_⟩
  · intro hq
    rw [create_qa_clip_err_q synth q a i fs hq]
  · intro r hq ha
    rw [create_qa_clip_ok synth q a i fs (0, r) (0, r) hq ha]
    refine ⟨_, _, rfl, rfl, ?_⟩
    simp [audioDuration]

theorem audio_validation_witness :
    ((create_qa_clip (fun _ => none) "q" "a" 1 []).1 =
      .error PipeErr.segmentBuildError)
  ∧ (∃ s1 s3 : Segment,
      (create_qa_clip (fun _ => some (0, 44100)) "q" "a" 1 []).1 =
        .ok [s1, pauseSeg, s3, pauseSeg]
      ∧ s1.audio = some (0, 44100) ∧ s1.duration = 0) :=
  ⟨(audio_validation (fun _ => none) "q" "a" 1 []).2.1 rfl,
   (audio_validation (fun _ => some (0, 44100)) "q" "a" 1 []).2.2 44100 rfl rfl⟩

/-- Claim C4, counterexample to the original statement: audio that decodes
to zero samples (hence zero duration) is not rejected — `create_audio_file`
reports success and `create_qa_clip` hands its caller a segment whose
attached audio has duration 0. -/
theorem audio_zero_duration_cex :
    ((create_audio_file (fun _ => some (0, 44100)) "hello" (q_audio_path 1) []).1
      = some (0, 44100))
  ∧ audioDuration (0, 44100) = 0
  ∧ (∃ segs, (create_qa_clip (fun _ => some (0, 44100)) "hello" "world" 1 []).1
        = .ok segs
      ∧ ∃ s ∈ segs, s.audio = some (0, 44100) ∧ s.duration = 0) := by
  refine ⟨rfl, by simp [audioDuration], ?_⟩
  have h := create_qa_clip_ok (fun _ => some (0, 44100)) "hello" "world" 1 []
    (0, 44100) (0, 44100) rfl rfl
  refine ⟨_, by rw [h], ?_⟩
  refine ⟨⟨"Q: " ++ "hello", (0, 0, 128), audioDuration (0, 44100),
    some (0, 44100)⟩, by simp, rfl, by simp [audioDuration]⟩

lemma create_video_clips_cons (synth : String → Option (Nat × Nat))
    (q a : String) (i : Nat) (fs : FS) (rest : List (String × String))
    (segs : List Segment) (fs2 : FS)
    (h : create_qa_clip synth q.trim a.trim i fs = (.ok segs, fs2)) :
    create_video_clips synth i fs ((q, a) :: rest) =
      (match create_video_clips synth (i + 1) fs2 rest with
       | (.error e, fs3) => (.error e, fs3)
       | (.ok more, fs3) => (.ok (segs ++ more), fs3)) := by
  simp [create_video_clips, h]

lemma pairSegs_length (synth : String → Option (Nat × Nat))
    (p : String × String) (h1 : (synth p.1.trim).isSome)
    (h2 : (synth p.2.trim).isSome) : (pairSegs synth p).length = 4 := by
  obtain ⟨qa, hqa⟩ := Option.isSome_iff_exists.mp h1
  obtain ⟨aa, haa⟩ := Option.isSome_iff_exists.mp h2
  simp [pairSegs, hqa, haa]

lemma totalDuration_append (l1 l2 : List Segment) :
    totalDuration (l1 ++ l2) = totalDuration l1 + totalDuration l2 := by
  simp [totalDuration]

lemma totalDuration_pairSegs (synth : String → Option (Nat × Nat))
    (p : String × String) (h1 : (synth p.1.trim).isSome)
    (h2 : (synth p.2.trim).isSome) :
    totalDuration (pairSegs synth p) = pairDuration synth p := by
  obtain ⟨qa, hqa⟩ := Option.isSome_iff_exists.mp h1
  obtain ⟨aa, haa⟩ := Option.isSome_iff_exists.mp h2
  simp [pairSegs, pairDuration, totalDuration, hqa, haa, pauseSeg]
  ring

lemma create_video_clips_ok (synth : String → Option (Nat × Nat)) :
    ∀ (pairs : List (String × String)) (i0 : Nat) (fs : FS),
      (∀ p ∈ pairs, (synth p.1.trim).isSome ∧ (synth p.2.trim).isSome) →
      ∃ fs2, create_video_clips synth i0 fs pairs =
        (.ok ((pairs.map (pairSegs synth)).flatten), fs2) := by
  intro pairs
  induction pairs with
  | nil => exact fun i0 fs _ => ⟨fs, rfl⟩
  | cons p rest ih =>
    intro i0 fs hall
    obtain ⟨h1, h2⟩ := hall p (List.mem_cons_self p rest)
    obtain ⟨qa, hqa⟩ := Option.isSome_iff_exists.mp h1
    obtain ⟨aa, haa⟩ := Option.isSome_iff_exists.mp h2
    obtain ⟨q, a⟩ := p
    have hclip := create_qa_clip_ok synth q.trim a.trim i0 fs qa aa hqa haa
    obtain ⟨fs2, hrest⟩ :=
      ih (i0 + 1)
        (deleteFiles ((fs ++ [q_audio_path i0]) ++ [a_audio_path i0])
          [q_audio_path i0, a_audio_path i0])
        (fun x hx => hall x (List.mem_cons_of_mem _ hx))
    refine ⟨fs2, ?_⟩
    rw [create_video_clips_cons synth q a i0 fs rest _ _ hclip, hrest]
    simp [pairSegs, hqa, haa]

lemma flatten_pairSegs_length (synth : String → Option (Nat × Nat)) :
    ∀ pairs : List (String × String),
      (∀ p ∈ pairs, (synth p.1.trim).isSome ∧ (synth p.2.trim).isSome) →
      ((pairs.map (pairSegs synth)).flatten).length = 4 * pairs.length := by
  intro pairs
  induction pairs with
  | nil => intro _; rfl
  | cons p rest ih =>
    intro hall
    obtain ⟨h1, h2⟩ := hall p (List.mem_cons_self p rest)
    have hrest := ih (fun x hx => hall x (List.mem_cons_of_mem _ hx))
    simp only [List.map_cons, List.flatten_cons, List.length_append, hrest,
      pairSegs_length synth p h1 h2, List.length_cons]
    ring

lemma flatten_pairSegs_duration (synth : String → Option (Nat × Nat)) :
    ∀ pairs : List (String × String),
      (∀ p ∈ pairs, (synth p.1.trim).isSome ∧ (synth p.2.trim).isSome) →
      totalDuration ((pairs.map (pairSegs synth)).flatten) =
        (pairs.map (pairDuration synth)).sum := by
  intro pairs
  induction pairs with
  | nil => intro _; rfl
  | cons p rest ih =>
    intro hall
    obtain ⟨h1, h2⟩ := hall p (List.mem_cons_self p rest)
    have hrest := ih (fun x hx => hall x (List.mem_cons_of_mem _ hx))
    simp only [List.map_cons, List.flatten_cons, totalDuration_append, hrest,
      totalDuration_pairSegs synth p h1 h2, List.sum_cons]

/-- Claim C2: for a non-empty list of pairs that all synthesize
successfully, the aggregation loop of `create_video` succeeds and produces
the concatenation, in input order, of each pair's four clips — exactly
`4 × N` segments — and the concatenated timeline's total duration is the
exact sum of all segment durations, which equals the sum over pairs of the
two audio durations plus the two 0.5 s pauses. -/
theorem video_timeline (synth : String → Option (Nat × Nat))
    (pairs : List (String × String)) (i0 : Nat) (fs : FS)
    (_hne : pairs ≠ [])
    (hall : ∀ p ∈ pairs, (synth p.1.trim).isSome ∧ (synth p.2.trim).isSome) :
    ∃ tl fs2,
      create_video_clips synth i0 fs pairs = (.ok tl, fs2)
    ∧ tl = (pairs.map (pairSegs synth)).flatten
    ∧ tl.length = 4 * pairs.length
    ∧ totalDuration tl = (tl.map Segment.duration).sum
    ∧ totalDuration tl = (pairs.map (pairDuration synth)).sum := by
  obtain ⟨fs2, h⟩ := create_video_clips_ok synth pairs i0 fs hall
  exact ⟨_, fs2, h, rfl, flatten_pairSegs_length synth pairs hall, rfl,
    flatten_pairSegs_duration synth pairs hall⟩

theorem video_timeline_witness :
    ∃ tl fs2,
      create_video_clips (fun _ => some (1, 1)) 1 [] [("q1", "a1")] =
        (.ok tl, fs2)
    ∧ tl.length = 4 ∧ totalDuration tl = 3 := by
  obtain ⟨tl, fs2, h1, _, h3, _, h5⟩ :=
    video_timeline (fun _ => some (1, 1)) [("q1", "a1")] 1 []
      (by simp) (fun p _ => ⟨rfl, rfl⟩)
  refine ⟨tl, fs2, h1, h3, ?_⟩
  rw [h5]
  simp [pairDuration, audioDuration]
  norm_num

/-- Claim C3: the encoder is attempted with the primary configuration
(H.264 video, AAC audio at 192k, forced stereo, forced 44.1 kHz); if that
fails for any reason, exactly one fallback attempt follows, with the
MP3/libmp3lame audio codec and the reduced ffmpeg parameter set of forced
stereo only; if the fallback also fails, no further attempt occurs and the
run fails with the encoding error. -/
theorem encode_fallback_policy (enc : EncCfg → Bool)
    (h : enc primaryCfg = false) :
    primaryCfg = ⟨24, "libx264", "aac", "192k",
      ["-strict", "-2", "-ac", "2", "-ar", "44100"]⟩
  ∧ (write_videofile_fallback enc).1 = [primaryCfg, fallbackCfg]
  ∧ fallbackCfg.audioCodec = "libmp3lame"
  ∧ fallbackCfg.ffmpegParams = ["-ac", "2"]
  ∧ (enc fallbackCfg = true → (write_videofile_fallback enc).2 = none)
  ∧ (enc fallbackCfg = false →
      write_videofile_fallback enc =
        ([primaryCfg, fallbackCfg], some PipeErr.encodingError)) := by
  refine ⟨rfl, ?_, rfl, rfl, ?_, ?_⟩
  · cases hf : enc fallbackCfg <;> simp [write_videofile_fallback, h, hf]
  · intro hf
    simp [write_videofile_fallback, h, hf]
  · intro hf
    simp [write_videofile_fallback, h, hf]

theorem encode_fallback_policy_witness :
    (write_videofile_fallback (fun _ => false)).1 = [primaryCfg, fallbackCfg]
  ∧ write_videofile_fallback (fun _ => false) =
      ([primaryCfg, fallbackCfg], some PipeErr.encodingError) := by
  have h := encode_fallback_policy (fun _ => false) rfl
  exact ⟨h.2.1, h.2.2.2.2.2 rfl⟩

end QaVideo
